import Mathlib

/-!
Verification development for the zklink_sdk transaction-construction and
signing layer.

The definitions below are a shallow embedding of the Rust sources:

* `src/common/src/crypto/mod.rs` — `sign_musig`, `verify_musig`,
  `deserialize_signature` (the Schnorr-style musig engine over the
  baby-jubjub prime-order subgroup with a Rescue-family hash);
* `src/types/src/tx_type/order_matching.rs` — `Order`, `OrderMatching`
  and their `get_bytes` canonical encoders, plus `pad_front`;
* `src/types/src/basic_types/tx_hash.rs` — `TxHash` and its hex string
  conversions;
* `src/bindings/sdk/src/lib.rs` — the `H256` string converter at the
  FFI boundary;
* `src/interface/src/sign_change_pubkey.rs` — `check_create2data` and
  `sign_change_pubkey`.

Machine integers are modelled as `Nat` with explicit `% 2 ^ w` at the
places where the Rust code truncates; fallible code returns
`Option`/`Except`.  Library primitives that the crate consumes as black
boxes (the curve arithmetic, the Rescue permutation, the packing codec
constants) are modelled from the specification, each marked with a
`Modelled from the spec:` doc comment.
-/

set_option maxRecDepth 4000

/-! ## Byte-level helpers -/

/-- Little-endian byte encoding of `x` into exactly `n` bytes (the layout
used by `PrimeFieldRepr::write_le`). -/
def toBytesLE : Nat → Nat → List Nat
  | 0, _ => []
  | n + 1, x => x % 256 :: toBytesLE n (x / 256)

/-- Little-endian interpretation of a byte list. -/
def fromBytesLE : List Nat → Nat
  | [] => 0
  | b :: bs => b + 256 * fromBytesLE bs

/-- Big-endian byte encoding of `x` into exactly `n` bytes (the layout of
`u32::to_be_bytes` and friends). -/
def toBytesBE (n x : Nat) : List Nat := (toBytesLE n x).reverse

/-- Big-endian interpretation of a byte list. -/
def fromBytesBE (l : List Nat) : Nat := fromBytesLE l.reverse

theorem toBytesLE_length (n : Nat) : ∀ x, (toBytesLE n x).length = n := by
  induction n with
  | zero => intro x; rfl
  | succ n ih => intro x; simp [toBytesLE, ih]

theorem toBytesBE_length (n x : Nat) : (toBytesBE n x).length = n := by
  simp [toBytesBE, toBytesLE_length]

theorem fromBytesLE_toBytesLE (n : Nat) :
    ∀ x, x < 256 ^ n → fromBytesLE (toBytesLE n x) = x := by
  induction n with
  | zero =>
    intro x hx
    simp only [toBytesLE, fromBytesLE]
    omega
  | succ n ih =>
    intro x hx
    have hdiv : x / 256 < 256 ^ n := by
      have h256 : (0 : Nat) < 256 := by norm_num
      refine (Nat.div_lt_iff_lt_mul h256).mpr ?_
      calc x < 256 ^ (n + 1) := hx
        _ = 256 ^ n * 256 := by rw [pow_succ]
    simp only [toBytesLE, fromBytesLE, ih (x / 256) hdiv]
    omega

instance {ε α : Type} [DecidableEq ε] [DecidableEq α] : DecidableEq (Except ε α) := fun x y =>
  match x, y with
  | .ok a, .ok b => if h : a = b then .isTrue (by rw [h]) else .isFalse (by simp [h])
  | .error a, .error b => if h : a = b then .isTrue (by rw [h]) else .isFalse (by simp [h])
  | .ok _, .error _ => .isFalse (by simp)
  | .error _, .ok _ => .isFalse (by simp)

theorem take_append_length {α : Type} (l₁ l₂ : List α) (n : Nat)
    (h : l₁.length = n) : (l₁ ++ l₂).take n = l₁ := by
  subst h
  exact List.take_left l₁ l₂

theorem drop_append_length {α : Type} (l₁ l₂ : List α) (n : Nat)
    (h : l₁.length = n) : (l₁ ++ l₂).drop n = l₂ := by
  subst h
  exact List.drop_left l₁ l₂

/-! ## The musig-Rescue signature engine (`src/common/src/crypto/mod.rs`)

The crate consumes the baby-jubjub curve and the Rescue permutation as
black boxes from `franklin_crypto`.  Following the spec, the prime-order
subgroup used for signing is modelled as its own scalar ring `Fs` (a
cyclic group of prime order), with the fixed generator acting as the
ring unit; scalar multiplication is ring multiplication. -/

/-- Modelled from the spec: the order of the prime subgroup of the
twisted-Edwards (baby-jubjub) curve used by the musig engine, i.e. the
modulus of the external scalar-field type `Fs`. -/
def fsModulus : Nat :=
  2736030358979909402780800718157159386076813972158567259200215660948447373041

instance : NeZero fsModulus := ⟨by decide⟩

/-- The scalar field of the signing curve (external collaborator,
modelled as `ZMod fsModulus`). -/
abbrev Fs := ZMod fsModulus

/-- Modelled from the spec: the fixed curve generator
(`FixedGenerators::SpendingKeyGenerator`); in the cyclic-group model it
is the ring unit. -/
def genG : Fs := 1

/-- Modelled from the spec: 32-byte packed encoding of a curve point
(`edwards::Point::write` / `PublicKey::write`). -/
def pointWrite (p : Fs) : List Nat := toBytesLE 32 p.val

/-- Modelled from the spec: packed-point decoding
(`edwards::Point::read`); fails on byte strings that are not a valid
packed point. -/
def pointRead (b : List Nat) : Option Fs :=
  if b.length = 32 ∧ fromBytesLE b < fsModulus then
    some ((fromBytesLE b : Nat) : Fs)
  else none

/-- Deterministic absorbing fold used as a concrete stand-in for the
Rescue permutation (an external collaborator whose internals are out of
scope for this layer); `seed` provides domain separation. -/
def foldHash (seed : Nat) (l : List Nat) : Nat :=
  l.foldl (fun a b => (a * 257 + b + 1) % 2 ^ 248) seed

/-- Modelled from the spec: `rescue_hash_tx_msg`, the Rescue-family
digest of a transaction message (31-byte output). -/
def rescueHashTxMsg (msg : List Nat) : List Nat := toBytesBE 31 (foldHash 1 msg)

/-- Modelled from the spec: `rescue_hash_orders`, the distinct hashing
entry point for concatenated, padded maker-and-taker order bytes. -/
def rescueHashOrders (msg : List Nat) : List Nat := toBytesBE 31 (foldHash 2 msg)

/-- Modelled from the spec: `privkey_from_slice`
(`zklink_private_key.rs`, not under `src/`) — signing fails if the input
private key cannot be parsed into a valid curve scalar. -/
def privkeyFromSlice (k : List Nat) : Except String Fs :=
  if k.length = 32 ∧ fromBytesBE k < fsModulus then
    .ok ((fromBytesBE k : Nat) : Fs)
  else .error "invalid private key"

/-- Modelled from the spec: `Seed::deterministic_seed` — the
per-signature nonce derived deterministically from the private key and
the message digest, with no external randomness. -/
def detSeed (sk : Fs) (hm : List Nat) : Fs :=
  ((foldHash 3 (toBytesLE 32 sk.val ++ hm) : Nat) : Fs)

/-- Modelled from the spec: the Schnorr challenge computed inside
`musig_rescue_sign` / `verify_musig_rescue` from the public key, the
`R` point and the message digest. -/
def challengeC (pk rP : Fs) (hm : List Nat) : Fs :=
  ((foldHash 4 (pointWrite pk ++ pointWrite rP ++ hm) : Nat) : Fs)

/-- Modelled from the spec: `PrivateKey::musig_rescue_sign` together
with the pubkey serialization done by `sign_musig` — derives the public
key, hashes the message, derives the deterministic nonce, computes the
Schnorr response and serializes `public_key(32) ∥ R(32) ∥ S(32)`. -/
def musigSignScalar (sk : Fs) (msg : List Nat) : List Nat :=
  let pk := sk * genG
  let hm := rescueHashTxMsg msg
  let nonce := detSeed sk hm
  let rP := nonce * genG
  let s := nonce + challengeC pk rP hm * sk
  pointWrite pk ++ pointWrite rP ++ toBytesLE 32 s.val

/-- Embedding of `sign_musig` (`src/common/src/crypto/mod.rs:74`). -/
def sign_musig (private_key msg : List Nat) : Except String (List Nat) :=
  match privkeyFromSlice private_key with
  | .error e => .error e
  | .ok sk => .ok (musigSignScalar sk msg)

/-- Embedding of `EddsaSignature` (an `r` point and an `s` scalar). -/
structure MusigSignature where
  r : Fs
  s : Fs
  deriving DecidableEq

/-- Error message returned by `verify_musig` for a buffer that is not
exactly 96 bytes long. -/
def signatureLengthError : String :=
  "Signature length is not 96 bytes. Make sure it contains both the public key and the signature itself."

/-- Error message returned by `verify_musig` when the embedded public
key fails to decode. -/
def pubkeyReadError : String := "could not read public key"

/-- Error message returned by `deserialize_signature` when the `r`
point or the `s` scalar fails to decode. -/
def signatureParseError : String := "Failed to parse signature"

/-- Embedding of `deserialize_signature`
(`src/common/src/crypto/mod.rs:143`): splits the 64-byte tail at 32,
reads the `r` point, then reads `s` little-endian and rejects values
that are not a valid scalar. -/
def deserialize_signature (bytes : List Nat) : Except String MusigSignature :=
  let r_bar := bytes.take 32
  let s_bar := bytes.drop 32
  match pointRead r_bar with
  | none => .error signatureParseError
  | some rP =>
    if 32 ≤ s_bar.length ∧ fromBytesLE (s_bar.take 32) < fsModulus then
      .ok ⟨rP, ((fromBytesLE (s_bar.take 32) : Nat) : Fs)⟩
    else .error signatureParseError

/-- Embedding of `verify_musig` (`src/common/src/crypto/mod.rs:115`). -/
def verify_musig (msg signature : List Nat) : Except String Bool :=
  if signature.length ≠ 96 then .error signatureLengthError
  else
    match pointRead (signature.take 32) with
    | none => .error pubkeyReadError
    | some pubkey =>
      match deserialize_signature (signature.drop 32) with
      | .error e => .error e
      | .ok sig =>
        let hm := rescueHashTxMsg msg
        .ok (decide (sig.s * genG = sig.r + challengeC pubkey sig.r hm * pubkey))

/-! ## Round-trip lemmas for the packed encodings -/

theorem fsModulus_lt_pow : fsModulus < 256 ^ 32 := by decide

theorem val_lt_pow (p : Fs) : p.val < 256 ^ 32 :=
  lt_trans (ZMod.val_lt p) fsModulus_lt_pow

theorem pointWrite_length (p : Fs) : (pointWrite p).length = 32 :=
  toBytesLE_length 32 p.val

theorem fromBytesLE_pointWrite (p : Fs) : fromBytesLE (pointWrite p) = p.val :=
  fromBytesLE_toBytesLE 32 p.val (val_lt_pow p)

theorem pointRead_pointWrite (p : Fs) : pointRead (pointWrite p) = some p := by
  unfold pointRead
  rw [if_pos ⟨pointWrite_length p, by rw [fromBytesLE_pointWrite]; exact ZMod.val_lt p⟩]
  rw [fromBytesLE_pointWrite]
  exact congrArg some (ZMod.natCast_rightInverse p)

theorem deserialize_pointWrite (rP s : Fs) :
    deserialize_signature (pointWrite rP ++ toBytesLE 32 (ZMod.val s)) = .ok ⟨rP, s⟩ := by
  have htake : (pointWrite rP ++ toBytesLE 32 s.val).take 32 = pointWrite rP :=
    take_append_length _ _ 32 (pointWrite_length rP)
  have hdrop : (pointWrite rP ++ toBytesLE 32 s.val).drop 32 = toBytesLE 32 s.val :=
    drop_append_length _ _ 32 (pointWrite_length rP)
  have htake2 : (toBytesLE 32 s.val).take 32 = toBytesLE 32 s.val := by
    apply List.take_of_length_le
    rw [toBytesLE_length]
  have hs : fromBytesLE (toBytesLE 32 s.val) = s.val :=
    fromBytesLE_toBytesLE 32 s.val (val_lt_pow s)
  simp only [deserialize_signature, htake, hdrop, pointRead_pointWrite, htake2, hs,
    toBytesLE_length]
  rw [if_pos ⟨by norm_num, ZMod.val_lt s⟩]
  exact congrArg Except.ok (congrArg (MusigSignature.mk rP) (ZMod.natCast_rightInverse s))

theorem verify_musig_layout_eval (m : List Nat) (pk rP s : Fs) :
    verify_musig m (pointWrite pk ++ pointWrite rP ++ toBytesLE 32 (ZMod.val s)) =
      .ok (decide (s * genG = rP + challengeC pk rP (rescueHashTxMsg m) * pk)) := by
  have hlen : (pointWrite pk ++ pointWrite rP ++ toBytesLE 32 s.val).length = 96 := by
    simp [pointWrite_length, toBytesLE_length]
  have hassoc : pointWrite pk ++ pointWrite rP ++ toBytesLE 32 s.val =
      pointWrite pk ++ (pointWrite rP ++ toBytesLE 32 s.val) := List.append_assoc _ _ _
  have htake : (pointWrite pk ++ pointWrite rP ++ toBytesLE 32 s.val).take 32 = pointWrite pk := by
    rw [hassoc]; exact take_append_length _ _ 32 (pointWrite_length pk)
  have hdrop : (pointWrite pk ++ pointWrite rP ++ toBytesLE 32 s.val).drop 32 =
      pointWrite rP ++ toBytesLE 32 s.val := by
    rw [hassoc]; exact drop_append_length _ _ 32 (pointWrite_length pk)
  unfold verify_musig
  rw [if_neg (by rw [hlen]; omega)]
  rw [htake, pointRead_pointWrite, hdrop, deserialize_pointWrite]

/-! ## Claims C1–C4: the signature engine -/

theorem sign_musig_ok (k m sig : List Nat) (h : sign_musig k m = .ok sig) :
    ∃ sk, privkeyFromSlice k = .ok sk ∧ sig = musigSignScalar sk m := by
  unfold sign_musig at h
  cases hk : privkeyFromSlice k with
  | error e => rw [hk] at h; exact absurd h (by simp)
  | ok sk =>
    rw [hk] at h
    simp only [Except.ok.injEq] at h
    exact ⟨sk, rfl, h.symm⟩

/-- C1: verifying the signature produced by signing a message with a key
that parses into a valid curve scalar succeeds —
`verify_musig msg (sign_musig key msg)` returns `Ok(true)`. -/
theorem sign_then_verify_musig (k m sig : List Nat) (h : sign_musig k m = .ok sig) :
    verify_musig m sig = .ok true := by
  obtain ⟨sk, hk, hsig⟩ := sign_musig_ok k m sig h
  subst hsig
  simp only [musigSignScalar]
  rw [verify_musig_layout_eval]
  simp only [Except.ok.injEq, decide_eq_true_eq]
  ring

/-- Witness for C1 at a concrete key and message. -/
theorem sign_then_verify_musig_witness :
    verify_musig [1, 2, 3]
      ((sign_musig (toBytesBE 32 5) [1, 2, 3]).toOption.getD []) = .ok true :=
  sign_then_verify_musig (toBytesBE 32 5) [1, 2, 3] _ (by decide)

/-- C2: signing is deterministic — the output of `sign_musig` is a
function of the parsed private key and the message digest alone (no
external randomness), and on success the two byte-identical outputs are
96 bytes long. -/
theorem sign_musig_deterministic (k₁ k₂ m₁ m₂ : List Nat)
    (hk : privkeyFromSlice k₁ = privkeyFromSlice k₂)
    (hm : rescueHashTxMsg m₁ = rescueHashTxMsg m₂) :
    sign_musig k₁ m₁ = sign_musig k₂ m₂ ∧
      ∀ s, sign_musig k₁ m₁ = .ok s → s.length = 96 := by
  have hfun : sign_musig k₁ m₁ = sign_musig k₂ m₂ := by
    unfold sign_musig
    rw [hk]
    cases privkeyFromSlice k₂ with
    | error e => rfl
    | ok sk =>
      simp only [Except.ok.injEq]
      unfold musigSignScalar
      rw [hm]
  refine ⟨hfun, fun s hs => ?_⟩
  obtain ⟨sk, _, hsig⟩ := sign_musig_ok k₁ m₁ s hs
  subst hsig
  simp [musigSignScalar, pointWrite_length, toBytesLE_length]

/-- Witness for C2: signing the same message twice with the same key
gives the same 96-byte output. -/
theorem sign_musig_deterministic_witness :
    ((sign_musig (toBytesBE 32 7) [9]).toOption.getD []).length = 96 :=
  (sign_musig_deterministic (toBytesBE 32 7) (toBytesBE 32 7) [9] [9] rfl rfl).2 _ (by decide)

theorem deserialize_signature_error_msg (b : List Nat) (e : String)
    (h : deserialize_signature b = .error e) : e = signatureParseError := by
  simp only [deserialize_signature] at h
  split at h
  · exact (Except.error.inj h).symm
  · split at h
    · exact absurd h (by simp)
    · exact (Except.error.inj h).symm

theorem signatureLengthError_ne_pubkey : signatureLengthError ≠ pubkeyReadError := by decide

theorem signatureLengthError_ne_parse : signatureLengthError ≠ signatureParseError := by decide

theorem pubkeyReadError_ne_parse : pubkeyReadError ≠ signatureParseError := by decide

/-- C3: `verify_musig` raises an error exactly on malformed input — the
length error holds iff the buffer is not 96 bytes; the public-key read
error holds iff the buffer is 96 bytes and the embedded public key fails
to decode; the signature parse error holds iff the public key decodes
but the `R` point or `S` scalar fails to; and it returns `Ok` of some
boolean iff every component parses. -/
theorem verify_musig_error_characterization (msg sig : List Nat) :
    (verify_musig msg sig = .error signatureLengthError ↔ sig.length ≠ 96) ∧
    (verify_musig msg sig = .error pubkeyReadError ↔
      sig.length = 96 ∧ pointRead (sig.take 32) = none) ∧
    (verify_musig msg sig = .error signatureParseError ↔
      sig.length = 96 ∧ pointRead (sig.take 32) ≠ none ∧
        (deserialize_signature (sig.drop 32)).isOk = false) ∧
    ((∃ b, verify_musig msg sig = .ok b) ↔
      sig.length = 96 ∧ pointRead (sig.take 32) ≠ none ∧
        (deserialize_signature (sig.drop 32)).isOk = true) := by
  by_cases hl : sig.length = 96
  · have hnn : ¬ sig.length ≠ 96 := by omega
    cases hp : pointRead (sig.take 32) with
    | none =>
      simp [verify_musig, hnn, hp, hl, signatureLengthError_ne_pubkey,
        signatureLengthError_ne_parse, pubkeyReadError_ne_parse,
        (signatureLengthError_ne_pubkey).symm, (pubkeyReadError_ne_parse).symm]
    | some pk =>
      cases hd : deserialize_signature (sig.drop 32) with
      | error e =>
        have he : e = signatureParseError := deserialize_signature_error_msg _ _ hd
        subst he
        simp [verify_musig, hnn, hp, hd, hl, Except.isOk, Except.toBool,
          signatureLengthError_ne_parse, pubkeyReadError_ne_parse,
          Ne.symm signatureLengthError_ne_parse, Ne.symm pubkeyReadError_ne_parse]
      | ok ms =>
        simp [verify_musig, hnn, hp, hd, hl, Except.isOk, Except.toBool]
  · simp [verify_musig, hl, Except.isOk, Except.toBool, signatureLengthError_ne_pubkey,
      signatureLengthError_ne_parse]

/-- C4: a successful `sign_musig` output is exactly 96 bytes, laid out
as the 32-byte packed public key of the signer, then the 32-byte packed
`R` point, then the 32-byte `S` scalar, in that order. -/
theorem sign_musig_output_layout (k m sig : List Nat) (h : sign_musig k m = .ok sig) :
    ∃ sk rP s : Fs, privkeyFromSlice k = .ok sk ∧
      sig = pointWrite (sk * genG) ++ pointWrite rP ++ toBytesLE 32 (ZMod.val s) ∧
      (pointWrite (sk * genG)).length = 32 ∧
      (pointWrite rP).length = 32 ∧
      (toBytesLE 32 (ZMod.val s)).length = 32 ∧
      sig.length = 96 := by
  obtain ⟨sk, hk, hsig⟩ := sign_musig_ok k m sig h
  refine ⟨sk, detSeed sk (rescueHashTxMsg m) * genG,
    detSeed sk (rescueHashTxMsg m) +
      challengeC (sk * genG) (detSeed sk (rescueHashTxMsg m) * genG) (rescueHashTxMsg m) * sk,
    hk, ?_, pointWrite_length _, pointWrite_length _, toBytesLE_length 32 _, ?_⟩
  · rw [hsig]; rfl
  · rw [hsig]
    simp [musigSignScalar, pointWrite_length, toBytesLE_length]

/-- Witness for C4 at a concrete key and message. -/
theorem sign_musig_output_layout_witness :
    ((sign_musig (toBytesBE 32 11) [4, 5]).toOption.getD []).length = 96 := by
  obtain ⟨sk, rP, s, _, _, _, _, _, hlen⟩ :=
    sign_musig_output_layout (toBytesBE 32 11) [4, 5]
      ((sign_musig (toBytesBE 32 11) [4, 5]).toOption.getD []) (by decide)
  exact hlen

/-! ## Canonical byte encoding of orders
(`src/types/src/tx_type/order_matching.rs`) -/

/-- Embedding of `pad_front` (`order_matching.rs:307`): front-pads
`bytes` with zeros up to `size`; the Rust `assert!` that `bytes` does
not exceed `size` is modelled as `none`. -/
def padFront (bytes : List Nat) (size : Nat) : Option (List Nat) :=
  if bytes.length ≤ size then
    some (List.replicate (size - bytes.length) 0 ++ bytes)
  else none

/-- Minimal big-endian byte string of `x` (empty for zero), with an
explicit fuel argument to keep the recursion structural. -/
def natToBytesBEminAux : Nat → Nat → List Nat
  | 0, _ => []
  | fuel + 1, x => if x = 0 then [] else natToBytesBEminAux fuel (x / 256) ++ [x % 256]

/-- Embedding of `num::BigUint::to_bytes_be`: minimal big-endian byte
string, with zero encoded as the single byte `0`. -/
def bigUintToBytesBE (x : Nat) : List Nat :=
  if x = 0 then [0] else natToBytesBEminAux x x

/-- Modelled from the spec: the generic mantissa-times-ten-to-exponent
packing of the numeric packing codec (`pack.rs`, not under `src/`).
Searches for the smallest exponent below `2 ^ expBits` at which the
mantissa is exact and fits `mantissaBits` bits; unpackable values are
rejected, not truncated. -/
def findPackExp (mantissaBits amount : Nat) : Option Nat :=
  (List.range (2 ^ 5)).find? fun e =>
    decide (amount % 10 ^ e = 0) && decide (amount / 10 ^ e < 2 ^ mantissaBits)

/-- Modelled from the spec: fixed-width packed form of an amount —
mantissa and exponent in a `(mantissaBits + expBits) / 8`-byte
big-endian block. -/
def packAmount (mantissaBits expBits amount : Nat) : Option (List Nat) :=
  (findPackExp mantissaBits amount).map fun e =>
    toBytesBE ((mantissaBits + expBits) / 8) ((amount / 10 ^ e) * 2 ^ expBits + e)

/-- Modelled from the spec: `pack_token_amount` — the token-amount
variant of the packing codec (35-bit mantissa, 5-bit exponent, 5-byte
output). -/
def pack_token_amount (amount : Nat) : Option (List Nat) := packAmount 35 5 amount

/-- Modelled from the spec: `pack_fee_amount` — the fee variant of the
packing codec (11-bit mantissa, 5-bit exponent, 2-byte output). -/
def pack_fee_amount (amount : Nat) : Option (List Nat) := packAmount 11 5 amount

/-- Embedding of the `Order` struct (`order_matching.rs:79`); numeric
fields are `Nat` images of the Rust fixed-width integers, amounts and
price are the `BigUint` fields. -/
structure Order where
  account_id : Nat
  sub_account_id : Nat
  slot_id : Nat
  nonce : Nat
  base_token_id : Nat
  quote_token_id : Nat
  amount : Nat
  price : Nat
  is_sell : Nat
  fee_ratio1 : Nat
  fee_ratio2 : Nat
  signature : List Nat
  deriving DecidableEq

/-- Embedding of `Order::MSG_TYPE` (`order_matching.rs:112`). -/
def Order.MSG_TYPE : Nat := 0xff

/-- Modelled from the spec: `PRICE_BIT_WIDTH / 8` — the fixed byte
width of the price field (`params.rs`, not under `src/`). -/
def PRICE_BYTES : Nat := 15

/-- Embedding of `Order::get_bytes` (`order_matching.rs:145`): type tag,
then fixed-width big-endian fields in declared order.  The `as u16`
casts and the `u8` fields appear as explicit `% 2 ^ w`; the nonce is
written as `to_be_bytes()[1..]` of its `u32`; Rust panics (the
`pad_front` assert, an unpackable amount) are modelled as `none`. -/
def Order.get_bytes (o : Order) : Option (List Nat) := do
  let priceBytes ← padFront (bigUintToBytesBE o.price) PRICE_BYTES
  let amountPacked ← pack_token_amount o.amount
  pure ([Order.MSG_TYPE] ++ toBytesBE 4 (o.account_id % 2 ^ 32) ++
    [o.sub_account_id % 2 ^ 8] ++ toBytesBE 2 (o.slot_id % 2 ^ 16) ++
    (toBytesBE 4 (o.nonce % 2 ^ 32)).drop 1 ++
    toBytesBE 2 (o.base_token_id % 2 ^ 16) ++ toBytesBE 2 (o.quote_token_id % 2 ^ 16) ++
    priceBytes ++ [o.is_sell % 2 ^ 8] ++ [o.fee_ratio1 % 2 ^ 8] ++ [o.fee_ratio2 % 2 ^ 8] ++
    amountPacked)

/-- Embedding of the `OrderMatching` struct (`order_matching.rs:22`). -/
structure OrderMatching where
  account_id : Nat
  sub_account_id : Nat
  taker : Order
  maker : Order
  fee : Nat
  fee_token : Nat
  expect_base_amount : Nat
  expect_quote_amount : Nat
  signature : List Nat
  deriving DecidableEq

/-- Modelled from the spec: the one-byte type tag `OrderMatching::TX_TYPE`
(defined outside the excerpted sources). -/
def OrderMatching.TX_TYPE : Nat := 0x08

/-- Modelled from the spec: `ORDERS_BYTES` — the fixed total width to
which the concatenated maker-and-taker bytes are resized before hashing
(`params.rs`, not under `src/`). -/
def ORDERS_BYTES : Nat := 178

/-- Embedding of `Vec::resize(n, 0)`: truncates or zero-pads on the
right to exactly `n` elements. -/
def listResize (l : List Nat) (n : Nat) : List Nat :=
  l.take n ++ List.replicate (n - l.length) 0

/-- Embedding of `OrderMatching::get_bytes` (`order_matching.rs:263`):
maker bytes then taker bytes, resized to `ORDERS_BYTES`, hashed with
`rescue_hash_orders`; then tag, ids, the hash, fee token, packed fee and
the two unpacked 16-byte big-endian expected amounts.  The
`to_u128().unwrap()` panics are modelled as `none` when an amount does
not fit `u128`. -/
def OrderMatching.get_bytes (om : OrderMatching) : Option (List Nat) := do
  let maker_order_bytes ← om.maker.get_bytes
  let taker_order_bytes ← om.taker.get_bytes
  let orders_bytes := listResize (maker_order_bytes ++ taker_order_bytes) ORDERS_BYTES
  let feePacked ← pack_fee_amount om.fee
  if om.expect_base_amount < 2 ^ 128 ∧ om.expect_quote_amount < 2 ^ 128 then
    pure ([OrderMatching.TX_TYPE] ++ toBytesBE 4 (om.account_id % 2 ^ 32) ++
      [om.sub_account_id % 2 ^ 8] ++ rescueHashOrders orders_bytes ++
      toBytesBE 2 (om.fee_token % 2 ^ 16) ++ feePacked ++
      toBytesBE 16 om.expect_base_amount ++ toBytesBE 16 om.expect_quote_amount)
  else none

/-! ## Claims C5–C7: canonical order encoding -/

theorem natToBytesBEminAux_length_le (fuel : Nat) :
    ∀ x n, x < 256 ^ n → (natToBytesBEminAux fuel x).length ≤ n := by
  induction fuel with
  | zero => intro x n _; simp [natToBytesBEminAux]
  | succ fuel ih =>
    intro x n hx
    by_cases hx0 : x = 0
    · simp [natToBytesBEminAux, hx0]
    · cases n with
      | zero => omega
      | succ n =>
        have hdiv : x / 256 < 256 ^ n := by
          have h256 : (0 : Nat) < 256 := by norm_num
          refine (Nat.div_lt_iff_lt_mul h256).mpr ?_
          calc x < 256 ^ (n + 1) := hx
            _ = 256 ^ n * 256 := by rw [pow_succ]
        have := ih (x / 256) n hdiv
        simp only [natToBytesBEminAux, if_neg hx0, List.length_append, List.length_cons,
          List.length_nil]
        omega

theorem bigUintToBytesBE_length_le (x n : Nat) (hn : 1 ≤ n) (hx : x < 256 ^ n) :
    (bigUintToBytesBE x).length ≤ n := by
  by_cases hx0 : x = 0
  · simp [bigUintToBytesBE, hx0]; omega
  · simp only [bigUintToBytesBE, if_neg hx0]
    exact natToBytesBEminAux_length_le x x n hx

theorem pack_token_amount_length_eq (a : Nat) (l : List Nat)
    (h : pack_token_amount a = some l) : l.length = 5 := by
  simp only [pack_token_amount, packAmount, Option.map_eq_some'] at h
  obtain ⟨e, _, hl⟩ := h
  rw [← hl, toBytesBE_length]

theorem pack_fee_amount_length_eq (a : Nat) (l : List Nat)
    (h : pack_fee_amount a = some l) : l.length = 2 := by
  simp only [pack_fee_amount, packAmount, Option.map_eq_some'] at h
  obtain ⟨e, _, hl⟩ := h
  rw [← hl, toBytesBE_length]

/-- Field ranges implied by the Rust types and the per-field validators:
every scalar fits the bit width of its protocol field and the amount is
packable. -/
def validOrder (o : Order) : Prop :=
  o.account_id < 2 ^ 32 ∧ o.sub_account_id < 2 ^ 8 ∧ o.slot_id < 2 ^ 16 ∧
  o.nonce < 2 ^ 24 ∧ o.base_token_id < 2 ^ 16 ∧ o.quote_token_id < 2 ^ 16 ∧
  o.price < 2 ^ 120 ∧ o.is_sell < 2 ∧ o.fee_ratio1 < 2 ^ 8 ∧ o.fee_ratio2 < 2 ^ 8 ∧
  (pack_token_amount o.amount).isSome = true

instance (o : Order) : Decidable (validOrder o) := by
  unfold validOrder
  infer_instance

theorem toBytesBE_four_drop_one (x : Nat) (h : x < 2 ^ 24) :
    (toBytesBE 4 x).drop 1 = toBytesBE 3 x := by
  have h3 : x / 256 / 256 / 256 = 0 := by
    rw [Nat.div_div_eq_div_mul, Nat.div_div_eq_div_mul]
    exact Nat.div_eq_of_lt (by omega)
  simp [toBytesBE, toBytesLE, h3]

/-- C5: for every `Order` with fields in their valid ranges,
`get_bytes` succeeds and returns the tag byte `0xff` followed by the
fields in declared order as fixed-width big-endian blocks (4-byte
account id, 1-byte sub-account id, 2-byte slot id, 3-byte nonce, 2-byte
base and quote token ids, front-zero-padded 15-byte price, 1-byte
is_sell and fee ratios, 5-byte packed amount), for a fixed total length
of 38 bytes. -/
theorem order_get_bytes_layout (o : Order) (h : validOrder o) :
    ∃ bs, o.get_bytes = some bs ∧
      bs = [Order.MSG_TYPE] ++ toBytesBE 4 o.account_id ++ [o.sub_account_id] ++
        toBytesBE 2 o.slot_id ++ toBytesBE 3 o.nonce ++
        toBytesBE 2 o.base_token_id ++ toBytesBE 2 o.quote_token_id ++
        (List.replicate (15 - (bigUintToBytesBE o.price).length) 0 ++
          bigUintToBytesBE o.price) ++
        [o.is_sell] ++ [o.fee_ratio1] ++ [o.fee_ratio2] ++
        (pack_token_amount o.amount).getD [] ∧
      bs.length = 38 := by
  obtain ⟨h1, h2, h3, h4, h5, h6, h7, h8, h9, h10, h11⟩ := h
  obtain ⟨packed, hpacked⟩ := Option.isSome_iff_exists.mp h11
  have hpl : (bigUintToBytesBE o.price).length ≤ 15 :=
    bigUintToBytesBE_length_le o.price 15 (by norm_num) (by norm_num at h7 ⊢; omega)
  have hpad : padFront (bigUintToBytesBE o.price) PRICE_BYTES =
      some (List.replicate (15 - (bigUintToBytesBE o.price).length) 0 ++
        bigUintToBytesBE o.price) := by
    simp [padFront, PRICE_BYTES, hpl]
  refine ⟨_, ?_, rfl, ?_⟩
  · simp only [Order.get_bytes, hpad, hpacked, Option.bind_eq_bind, Option.some_bind]
    have e1 : o.account_id % 2 ^ 32 = o.account_id := Nat.mod_eq_of_lt h1
    have e2 : o.sub_account_id % 2 ^ 8 = o.sub_account_id := Nat.mod_eq_of_lt h2
    have e3 : o.slot_id % 2 ^ 16 = o.slot_id := Nat.mod_eq_of_lt h3
    have e4 : o.nonce % 2 ^ 32 = o.nonce := Nat.mod_eq_of_lt (by omega)
    have e5 : o.base_token_id % 2 ^ 16 = o.base_token_id := Nat.mod_eq_of_lt h5
    have e6 : o.quote_token_id % 2 ^ 16 = o.quote_token_id := Nat.mod_eq_of_lt h6
    have e8 : o.is_sell % 2 ^ 8 = o.is_sell := Nat.mod_eq_of_lt (by omega)
    have e9 : o.fee_ratio1 % 2 ^ 8 = o.fee_ratio1 := Nat.mod_eq_of_lt h9
    have e10 : o.fee_ratio2 % 2 ^ 8 = o.fee_ratio2 := Nat.mod_eq_of_lt h10
    rw [e1, e2, e3, e4, e5, e6, e8, e9, e10, toBytesBE_four_drop_one o.nonce h4]
    rfl
  · have hplen : packed.length = 5 := pack_token_amount_length_eq o.amount packed hpacked
    simp only [hpacked, Option.getD_some, List.length_append, List.length_cons,
      List.length_nil, List.length_replicate, toBytesBE_length, hplen]
    omega

/-- The end-to-end scenario order of the spec (section 8). -/
def testOrder : Order :=
  { account_id := 1, sub_account_id := 0, slot_id := 5, nonce := 0,
    base_token_id := 1, quote_token_id := 2, amount := 10 ^ 18,
    price := 50000, is_sell := 0, fee_ratio1 := 5, fee_ratio2 := 10,
    signature := [] }

/-- Witness for C5 at the concrete scenario order. -/
theorem order_get_bytes_layout_witness :
    ∃ bs, testOrder.get_bytes = some bs ∧ bs.length = 38 := by
  obtain ⟨bs, hsome, _, hlen⟩ := order_get_bytes_layout testOrder (by decide)
  exact ⟨bs, hsome, hlen⟩

theorem listResize_length (l : List Nat) (n : Nat) : (listResize l n).length = n := by
  simp only [listResize, List.length_append, List.length_take, List.length_replicate]
  omega

/-- C6: `OrderMatching::get_bytes` concatenates the maker bytes with the
taker bytes, resizes (zero-pads or truncates) the concatenation to
exactly `ORDERS_BYTES`, and embeds only the `rescue_hash_orders` hash of
that fixed-width block in the outer encoding; the output has the fixed
length 73, so the raw maker and taker bytes themselves never appear. -/
theorem order_matching_get_bytes_hashes_orders (om : OrderMatching) (bs : List Nat)
    (h : om.get_bytes = some bs) :
    ∃ mb tb fp, om.maker.get_bytes = some mb ∧ om.taker.get_bytes = some tb ∧
      pack_fee_amount om.fee = some fp ∧
      bs = [OrderMatching.TX_TYPE] ++ toBytesBE 4 (om.account_id % 2 ^ 32) ++
        [om.sub_account_id % 2 ^ 8] ++
        rescueHashOrders (listResize (mb ++ tb) ORDERS_BYTES) ++
        toBytesBE 2 (om.fee_token % 2 ^ 16) ++ fp ++
        toBytesBE 16 om.expect_base_amount ++ toBytesBE 16 om.expect_quote_amount ∧
      (listResize (mb ++ tb) ORDERS_BYTES).length = ORDERS_BYTES ∧
      bs.length = 73 := by
  cases hmk : om.maker.get_bytes with
  | none => simp [OrderMatching.get_bytes, hmk] at h
  | some mb =>
    cases htk : om.taker.get_bytes with
    | none => simp [OrderMatching.get_bytes, hmk, htk] at h
    | some tb =>
      cases hfee : pack_fee_amount om.fee with
      | none => simp [OrderMatching.get_bytes, hmk, htk, hfee] at h
      | some fp =>
        by_cases hexp : om.expect_base_amount < 2 ^ 128 ∧ om.expect_quote_amount < 2 ^ 128
        · have hgb : om.get_bytes =
              some ([OrderMatching.TX_TYPE] ++ toBytesBE 4 (om.account_id % 2 ^ 32) ++
                [om.sub_account_id % 2 ^ 8] ++
                rescueHashOrders (listResize (mb ++ tb) ORDERS_BYTES) ++
                toBytesBE 2 (om.fee_token % 2 ^ 16) ++ fp ++
                toBytesBE 16 om.expect_base_amount ++
                toBytesBE 16 om.expect_quote_amount) := by
            simp only [OrderMatching.get_bytes, hmk, htk, hfee, Option.bind_eq_bind,
              Option.some_bind, if_pos hexp]
            rfl
          rw [hgb, Option.some.injEq] at h
          subst h
          refine ⟨mb, tb, fp, rfl, rfl, rfl, rfl, listResize_length _ _, ?_⟩
          have hfp : fp.length = 2 := pack_fee_amount_length_eq om.fee fp hfee
          simp only [List.length_append, List.length_cons, List.length_nil,
            toBytesBE_length, rescueHashOrders, hfp]
        · exfalso
          have hnone : om.get_bytes = none := by
            simp only [OrderMatching.get_bytes, hmk, htk, hfee, Option.bind_eq_bind,
              Option.some_bind, if_neg hexp]
          rw [hnone] at h
          exact Option.noConfusion h

/-- A small concrete order-matching transaction built from the scenario
order. -/
def testOrderMatching : OrderMatching :=
  { account_id := 3, sub_account_id := 1, taker := testOrder, maker := testOrder,
    fee := 0, fee_token := 1, expect_base_amount := 0, expect_quote_amount := 0,
    signature := [] }

/-- Witness for C6 at a concrete order-matching transaction. -/
theorem order_matching_get_bytes_hashes_orders_witness :
    ((testOrderMatching.get_bytes).getD []).length = 73 := by
  obtain ⟨mb, tb, fp, _, _, _, _, _, hlen⟩ :=
    order_matching_get_bytes_hashes_orders testOrderMatching
      ((testOrderMatching.get_bytes).getD []) (by decide)
  exact hlen

/-- C7 (amended): for an `OrderMatching` whose maker, taker and fee all
encode successfully, and whose expected amounts are below `2 ^ 128`,
`get_bytes` succeeds — the `to_u128` conversion-failure branch is
unreachable — and the two expected amounts appear as unpacked 16-byte
big-endian integers at the end of the encoding (offset 41). -/
theorem order_matching_expect_amounts_unpacked (om : OrderMatching)
    (hb : om.expect_base_amount < 2 ^ 128) (hq : om.expect_quote_amount < 2 ^ 128)
    (mb tb fp : List Nat)
    (hmk : om.maker.get_bytes = some mb) (htk : om.taker.get_bytes = some tb)
    (hfee : pack_fee_amount om.fee = some fp) :
    ∃ bs, om.get_bytes = some bs ∧
      bs.drop 41 = toBytesBE 16 om.expect_base_amount ++
        toBytesBE 16 om.expect_quote_amount := by
  have hgb : om.get_bytes =
      some ([OrderMatching.TX_TYPE] ++ toBytesBE 4 (om.account_id % 2 ^ 32) ++
        [om.sub_account_id % 2 ^ 8] ++
        rescueHashOrders (listResize (mb ++ tb) ORDERS_BYTES) ++
        toBytesBE 2 (om.fee_token % 2 ^ 16) ++ fp ++
        toBytesBE 16 om.expect_base_amount ++
        toBytesBE 16 om.expect_quote_amount) := by
    simp only [OrderMatching.get_bytes, hmk, htk, hfee, Option.bind_eq_bind,
      Option.some_bind, if_pos (And.intro hb hq)]
    rfl
  refine ⟨_, hgb, ?_⟩
  have hfp : fp.length = 2 := pack_fee_amount_length_eq om.fee fp hfee
  have hassoc : [OrderMatching.TX_TYPE] ++ toBytesBE 4 (om.account_id % 2 ^ 32) ++
      [om.sub_account_id % 2 ^ 8] ++
      rescueHashOrders (listResize (mb ++ tb) ORDERS_BYTES) ++
      toBytesBE 2 (om.fee_token % 2 ^ 16) ++ fp ++
      toBytesBE 16 om.expect_base_amount ++ toBytesBE 16 om.expect_quote_amount =
      ([OrderMatching.TX_TYPE] ++ toBytesBE 4 (om.account_id % 2 ^ 32) ++
        [om.sub_account_id % 2 ^ 8] ++
        rescueHashOrders (listResize (mb ++ tb) ORDERS_BYTES) ++
        toBytesBE 2 (om.fee_token % 2 ^ 16) ++ fp) ++
      (toBytesBE 16 om.expect_base_amount ++ toBytesBE 16 om.expect_quote_amount) := by
    simp [List.append_assoc]
  rw [hassoc]
  apply drop_append_length
  simp only [List.length_append, List.length_cons, List.length_nil, toBytesBE_length,
    rescueHashOrders, hfp]

/-- Witness for the amended C7 at a concrete order-matching
transaction. -/
theorem order_matching_expect_amounts_unpacked_witness :
    ∃ bs, testOrderMatching.get_bytes = some bs ∧
      bs.drop 41 = toBytesBE 16 0 ++ toBytesBE 16 0 := by
  obtain ⟨bs, hsome, hdrop⟩ := order_matching_expect_amounts_unpacked testOrderMatching
    (by decide) (by decide) ((testOrder.get_bytes).getD []) ((testOrder.get_bytes).getD [])
    ((pack_fee_amount 0).getD []) (by decide) (by decide) (by decide)
  exact ⟨bs, hsome, hdrop⟩

/-- An order whose price exceeds the 15-byte field width. -/
def overflowOrder : Order :=
  { testOrder with price := 2 ^ 120 }

/-- An order matching whose expected amounts are small but whose maker
order cannot be encoded (its price overflows the fixed field width). -/
def overflowOrderMatching : OrderMatching :=
  { testOrderMatching with maker := overflowOrder }

/-- Counterexample to C7 as stated: this `OrderMatching` has both
expected amounts below `2 ^ 128`, yet `get_bytes` does not return
normally (the maker order's price overflows the fixed price width, so
the encoder aborts — in Rust, the `pad_front` assertion panics). -/
theorem order_matching_get_bytes_counterexample :
    overflowOrderMatching.expect_base_amount < 2 ^ 128 ∧
    overflowOrderMatching.expect_quote_amount < 2 ^ 128 ∧
    overflowOrderMatching.get_bytes = none := by decide

/-! ## Hash string conversions (`src/types/src/basic_types/tx_hash.rs`,
`src/bindings/sdk/src/lib.rs`) -/

/-- Lowercase hex digit of a nibble: `0`–`9` then `a`–`f` (the alphabet
used by `hex::encode`). -/
def hexDigitLower (n : Nat) : Char :=
  if n < 10 then Char.ofNat (48 + n) else Char.ofNat (87 + n)

/-- The sixteen lowercase hex digits, in value order. -/
def hexDigits : List Char := (List.range 16).map hexDigitLower

/-- Embedding of `hex::encode`: two lowercase digits per byte, high
nibble first. -/
def hexEncodeChars : List Nat → List Char
  | [] => []
  | b :: bs => hexDigitLower (b / 16) :: hexDigitLower (b % 16) :: hexEncodeChars bs

/-- Value of one hex digit; `hex::decode` accepts both cases. -/
def hexCharVal (c : Char) : Option Nat :=
  if '0' ≤ c ∧ c ≤ '9' then some (c.toNat - 48)
  else if 'a' ≤ c ∧ c ≤ 'f' then some (c.toNat - 87)
  else if 'A' ≤ c ∧ c ≤ 'F' then some (c.toNat - 55)
  else none

/-- Embedding of `hex::decode`: fails on an odd number of characters or
on a non-hex character. -/
def hexDecodeChars : List Char → Option (List Nat)
  | [] => some []
  | [_] => none
  | c₁ :: c₂ :: rest => do
    let hi ← hexCharVal c₁
    let lo ← hexCharVal c₂
    let tl ← hexDecodeChars rest
    pure ((hi * 16 + lo) :: tl)

/-- Embedding of the `TxHash` struct (`tx_hash.rs:8`); the 32-byte
invariant of `data` is carried as a hypothesis where needed. -/
structure TxHash where
  data : List Nat
  deriving DecidableEq

/-- Embedding of `ToString for TxHash` (`tx_hash.rs:34`): the `0x`
prefix followed by the lowercase hex encoding of the 32 data bytes. -/
def TxHash.to_string (h : TxHash) : String :=
  String.mk ('0' :: 'x' :: hexEncodeChars h.data)

/-- Embedding of `FromStr for TxHash` (`tx_hash.rs:40`): requires the
`0x` prefix, hex-decodes the rest, and requires exactly 32 bytes. -/
def TxHash.from_str (s : String) : Except String TxHash :=
  match s.data with
  | '0' :: 'x' :: rest =>
    match hexDecodeChars rest with
    | none => .error "invalid hex"
    | some bytes =>
      if bytes.length = 32 then .ok ⟨bytes⟩ else .error "Size mismatch"
  | _ => .error "TxHash should start with 0x"

/-- Embedding of `strip_prefix("0x").unwrap_or(&val)` from the `H256`
converter: the prefix is optional. -/
def stripZeroX (cs : List Char) : List Char :=
  match cs with
  | '0' :: 'x' :: rest => rest
  | l => l

/-- Embedding of `UniffiCustomTypeConverter for H256 :: into_custom`
(`src/bindings/sdk/src/lib.rs:88`): strips an optional `0x`, hex-decodes,
and requires exactly 32 bytes; the `H256` value is its byte list. -/
def h256IntoCustom (s : String) : Except String (List Nat) :=
  match hexDecodeChars (stripZeroX s.data) with
  | none => .error "invalid hex"
  | some raw => if raw.length ≠ 32 then .error "SizeMismatch" else .ok raw

theorem hexCharVal_hexDigitLower (n : Nat) (h : n < 16) :
    hexCharVal (hexDigitLower n) = some n := by
  interval_cases n <;> rfl

theorem hexDigitLower_mem (n : Nat) (h : n < 16) : hexDigitLower n ∈ hexDigits := by
  interval_cases n <;> decide

theorem hexEncodeChars_length (d : List Nat) :
    (hexEncodeChars d).length = 2 * d.length := by
  induction d with
  | nil => rfl
  | cons b bs ih => simp [hexEncodeChars, ih]; omega

theorem hexDecode_hexEncode (d : List Nat) (h : ∀ b ∈ d, b < 256) :
    hexDecodeChars (hexEncodeChars d) = some d := by
  induction d with
  | nil => rfl
  | cons b bs ih =>
    have hb : b < 256 := h b (by simp)
    have hhi : b / 16 < 16 := by omega
    have hlo : b % 16 < 16 := by omega
    have hbs : ∀ x ∈ bs, x < 256 := fun x hx => h x (by simp [hx])
    simp only [hexEncodeChars, hexDecodeChars, hexCharVal_hexDigitLower _ hhi,
      hexCharVal_hexDigitLower _ hlo, ih hbs, Option.bind_eq_bind, Option.some_bind]
    have : b / 16 * 16 + b % 16 = b := by omega
    rw [this]
    rfl

theorem hexEncodeChars_mem (d : List Nat) (h : ∀ b ∈ d, b < 256) :
    ∀ c ∈ hexEncodeChars d, c ∈ hexDigits := by
  induction d with
  | nil => intro c hc; simp [hexEncodeChars] at hc
  | cons b bs ih =>
    intro c hc
    have hb : b < 256 := h b (by simp)
    have hbs : ∀ x ∈ bs, x < 256 := fun x hx => h x (by simp [hx])
    simp only [hexEncodeChars, List.mem_cons] at hc
    rcases hc with hc | hc | hc
    · rw [hc]; exact hexDigitLower_mem _ (by omega)
    · rw [hc]; exact hexDigitLower_mem _ (by omega)
    · exact ih hbs c hc

/-- C9: for a `TxHash` holding 32 bytes, `to_string` produces `0x`
followed by exactly 64 lowercase hex characters, and `from_str` of that
string returns the identical hash — the string round trip is
bit-exact. -/
theorem tx_hash_string_roundtrip (d : List Nat) (h32 : d.length = 32)
    (hb : ∀ b ∈ d, b < 256) :
    (TxHash.to_string ⟨d⟩).data = '0' :: 'x' :: hexEncodeChars d ∧
    (hexEncodeChars d).length = 64 ∧
    (∀ c ∈ hexEncodeChars d, c ∈ hexDigits) ∧
    TxHash.from_str (TxHash.to_string ⟨d⟩) = .ok ⟨d⟩ := by
  refine ⟨rfl, by rw [hexEncodeChars_length, h32], hexEncodeChars_mem d hb, ?_⟩
  show TxHash.from_str (String.mk ('0' :: 'x' :: hexEncodeChars d)) = .ok ⟨d⟩
  simp only [TxHash.from_str, hexDecode_hexEncode d hb, h32]
  rfl

/-- Witness for C9 at a concrete 32-byte value. -/
theorem tx_hash_string_roundtrip_witness :
    TxHash.from_str (TxHash.to_string ⟨List.range 32⟩) = .ok ⟨List.range 32⟩ :=
  (tx_hash_string_roundtrip (List.range 32) (by decide) (by decide)).2.2.2

theorem except_error_or_ok {ε α : Type} (x : Except ε α) :
    (∃ e, x = .error e) ∨ (∃ v, x = .ok v) := by
  cases x with
  | error e => exact Or.inl ⟨e, rfl⟩
  | ok v => exact Or.inr ⟨v, rfl⟩

theorem from_str_ok_shape (cs : List Char) (a : TxHash)
    (h : TxHash.from_str (String.mk cs) = .ok a) :
    cs.take 2 = ['0', 'x'] ∧ hexDecodeChars (cs.drop 2) = some a.data ∧
      a.data.length = 32 := by
  simp only [TxHash.from_str] at h
  split at h
  · rename_i rest
    split at h
    · exact absurd h (by simp)
    · rename_i bytes hbytes
      split at h
      · rename_i hlen
        have ha : a = ⟨bytes⟩ := (Except.ok.inj h).symm
        subst ha
        exact ⟨rfl, by rw [show (('0' : Char) :: 'x' :: rest).drop 2 = rest from rfl, hbytes], hlen⟩
      · exact absurd h (by simp)
  · exact absurd h (by simp)

/-- C10 (amended): `TxHash::from_str` fails whenever the `0x` prefix is
missing, and whenever the decoded payload is not exactly 32 bytes; the
`H256` FFI converter, by contrast, treats the `0x` prefix as optional
(`strip_prefix(..).unwrap_or(..)`) and fails exactly when the
prefix-stripped payload does not hex-decode to exactly 32 bytes. -/
theorem hash_parse_rejections (cs : List Char) :
    (cs.take 2 ≠ ['0', 'x'] → ∃ e, TxHash.from_str (String.mk cs) = .error e) ∧
    (∀ bs, cs.take 2 = ['0', 'x'] → hexDecodeChars (cs.drop 2) = some bs →
      bs.length ≠ 32 → ∃ e, TxHash.from_str (String.mk cs) = .error e) ∧
    (cs.take 2 = ['0', 'x'] → hexDecodeChars (cs.drop 2) = none →
      ∃ e, TxHash.from_str (String.mk cs) = .error e) ∧
    (hexDecodeChars (stripZeroX cs) = none →
      ∃ e, h256IntoCustom (String.mk cs) = .error e) ∧
    (∀ bs, hexDecodeChars (stripZeroX cs) = some bs →
      (h256IntoCustom (String.mk cs) = .ok bs ↔ bs.length = 32)) := by
  refine ⟨?_, ?_, ?_, ?_, ?_⟩
  · intro hne
    rcases except_error_or_ok (TxHash.from_str (String.mk cs)) with ⟨e, he⟩ | ⟨v, hv⟩
    · exact ⟨e, he⟩
    · exact absurd (from_str_ok_shape cs v hv).1 hne
  · intro bs _ hdec hlen
    rcases except_error_or_ok (TxHash.from_str (String.mk cs)) with ⟨e, he⟩ | ⟨v, hv⟩
    · exact ⟨e, he⟩
    · obtain ⟨_, hdec2, hlen2⟩ := from_str_ok_shape cs v hv
      rw [hdec] at hdec2
      exact absurd (by rw [Option.some.inj hdec2]; exact hlen2) hlen
  · intro _ hdec
    rcases except_error_or_ok (TxHash.from_str (String.mk cs)) with ⟨e, he⟩ | ⟨v, hv⟩
    · exact ⟨e, he⟩
    · obtain ⟨_, hdec2, _⟩ := from_str_ok_shape cs v hv
      rw [hdec] at hdec2
      exact Option.noConfusion hdec2
  · intro hdec
    simp only [h256IntoCustom, hdec]
    exact ⟨_, rfl⟩
  · intro bs hdec
    simp only [h256IntoCustom, hdec]
    constructor
    · intro hok
      by_cases hlen : bs.length ≠ 32
      · rw [if_pos hlen] at hok; exact absurd hok (by simp)
      · omega
    · intro hlen
      rw [if_neg (by omega)]

/-- Counterexample to C10 as stated: a 64-hex-character string with no
`0x` prefix is accepted by the `H256` FFI converter (the prefix is
stripped only if present), so parsing does not fail on a missing
prefix at that boundary. -/
theorem h256_accepts_missing_zerox :
    h256IntoCustom (String.mk (List.replicate 64 '0')) = .ok (List.replicate 32 0) ∧
    (List.replicate 64 '0').take 2 ≠ ['0', 'x'] := by
  constructor
  · rfl
  · decide

/-- Witness for the amended C10: a prefix-less string is rejected by
`TxHash::from_str`, and a 31-byte payload is rejected by the `H256`
converter. -/
theorem hash_parse_rejections_witness :
    (∃ e, TxHash.from_str (String.mk ['a', 'b']) = .error e) ∧
    ¬ (h256IntoCustom (String.mk (List.replicate 62 '0')) = .ok (List.replicate 31 0)) := by
  constructor
  · exact (hash_parse_rejections ['a', 'b']).1 (by decide)
  · intro hok
    have h := ((hash_parse_rejections (List.replicate 62 '0')).2.2.2.2
      (List.replicate 31 0) (by rfl)).mp hok
    simp at h

/-! ## CREATE2 authorization (`src/interface/src/sign_change_pubkey.rs`) -/

/-- Modelled from the spec: a 20-byte address-sized digest used by the
CREATE2-style deterministic address derivation (an external
collaborator). -/
def addrHash (l : List Nat) : List Nat := toBytesBE 20 (foldHash 5 l % 2 ^ 160)

/-- Embedding of the `Create2Data` struct (`change_pubkey.rs`, not under
`src/`): deployer (creator) address, salt argument and code hash. -/
structure Create2Data where
  creator_address : List Nat
  salt_arg : List Nat
  code_hash : List Nat
  deriving DecidableEq

/-- Modelled from the spec: `Create2Data::get_address` — the standard
deterministic-address derivation from the deployer address, the salt
(combined with the signer public-key hash) and the code hash
(`change_pubkey.rs`, not under `src/`). -/
def Create2Data.get_address (d : Create2Data) (pubkey_hash : List Nat) : List Nat :=
  addrHash (255 :: d.creator_address ++ addrHash (d.salt_arg ++ pubkey_hash) ++ d.code_hash)

/-- Modelled from the spec: a `ZkLinkSigner` holds an already-parsed
private scalar (`pk_signer.rs`, not under `src/`). -/
structure ZkLinkSigner where
  privateKey : Fs
  deriving DecidableEq

/-- Modelled from the spec: the signer's public key, derived from the
private key with the fixed generator. -/
def ZkLinkSigner.publicKey (s : ZkLinkSigner) : Fs := s.privateKey * genG

/-- Modelled from the spec: `public_key_hash` — a 20-byte hash of the
packed public key (`pub_key_hash`, not under `src/`). -/
def pubKeyHashBytes (p : Fs) : List Nat := toBytesBE 20 (foldHash 6 (pointWrite p) % 2 ^ 160)

/-- Modelled from the spec: `ZkLinkSigner::sign_musig` over a held,
already-valid private key. -/
def ZkLinkSigner.signMusig (s : ZkLinkSigner) (msg : List Nat) : List Nat :=
  musigSignScalar s.privateKey msg

/-- Embedding of the error type of the signing interface; the CREATE2
address mismatch is reported as `SignError::IncorrectTx`
(`sign_change_pubkey.rs:34`). -/
inductive SignError where
  | IncorrectTx
  deriving DecidableEq

/-- Embedding of `check_create2data` (`sign_change_pubkey.rs:72`). -/
def check_create2data (zklink_singer : ZkLinkSigner) (data : Create2Data)
    (account_address : List Nat) : Except SignError Unit :=
  let pubkey_hash := pubKeyHashBytes zklink_singer.publicKey
  let from_address := data.get_address pubkey_hash
  if from_address ≠ account_address then .error .IncorrectTx else .ok ()

/-- Embedding of `ChangePubKeyAuthData` (`change_pubkey.rs`, not under
`src/`): the three mutually exclusive authorization variants. -/
inductive ChangePubKeyAuthData where
  | OnChain
  | EthECDSA (eth_signature : List Nat)
  | EthCreate2 (data : Create2Data)
  deriving DecidableEq

/-- Embedding of `ChangePubKeyAuthRequest`: which authorization path the
caller asks for. -/
inductive ChangePubKeyAuthRequest where
  | OnChain
  | EthECDSA
  | EthCreate2 (data : Create2Data)
  deriving DecidableEq

/-- Modelled from the spec: the `ChangePubKey` transaction
(`change_pubkey.rs`, not under `src/`); the fields other than the auth
data and the signature are abstracted as their canonical bytes. -/
structure ChangePubKey where
  coreFields : List Nat
  eth_auth_data : ChangePubKeyAuthData
  signature : List Nat
  deriving DecidableEq

/-- Modelled from the spec: the byte encoding of the chosen auth
variant, embedded into the transaction bytes before signing. -/
def encodeAuthData : ChangePubKeyAuthData → List Nat
  | .OnChain => [0]
  | .EthECDSA s => 1 :: s
  | .EthCreate2 d => 2 :: d.creator_address ++ d.salt_arg ++ d.code_hash

/-- Modelled from the spec: `ChangePubKey::get_bytes` — tag byte, core
fields, then the resolved auth payload, so the signature commits to the
authorization method. -/
def ChangePubKey.get_bytes (tx : ChangePubKey) : List Nat :=
  254 :: tx.coreFields ++ encodeAuthData tx.eth_auth_data

/-- Modelled from the spec: the external Ethereum private-key signer. -/
structure EthPrivateKeySigner where
  key : Nat
  deriving DecidableEq

/-- Modelled from the spec: `to_eip712_request_payload` — the typed-data
payload over the chain id, the main contract and the transaction
fields. -/
def eip712Payload (tx : ChangePubKey) (l1_client_id : Nat)
    (main_contract : List Nat) : List Nat :=
  toBytesBE 4 (l1_client_id % 2 ^ 32) ++ main_contract ++ tx.coreFields

/-- Modelled from the spec: `sign_typed_data` of the external ECDSA
signer — a deterministic 65-byte signature. -/
def ethSignTypedData (s : EthPrivateKeySigner) (payload : List Nat) : List Nat :=
  toBytesBE 65 (foldHash 7 (toBytesBE 32 (s.key % 2 ^ 256) ++ payload) % 2 ^ 520)

/-- Embedding of the `TxSignature` result (`sign_change_pubkey.rs:42`). -/
structure TxSignature where
  tx : ChangePubKey
  eth_signature : Option (List Nat)
  deriving DecidableEq

/-- Embedding of `sign_change_pubkey` (`sign_change_pubkey.rs:13`):
resolves the requested auth variant (checking the CREATE2-derived
address on the `EthCreate2` path), aborts on mismatch, otherwise
attaches the auth data, signs the resulting bytes and returns the
signed transaction. -/
def sign_change_pubkey (eth_signer : EthPrivateKeySigner)
    (zklink_singer : ZkLinkSigner) (tx : ChangePubKey)
    (main_contract : List Nat) (l1_client_id : Nat)
    (account_address : List Nat) (auth_request : ChangePubKeyAuthRequest) :
    Except SignError TxSignature :=
  let eth_auth_data : Except SignError ChangePubKeyAuthData :=
    match auth_request with
    | .OnChain => .ok .OnChain
    | .EthECDSA =>
      let typed_data := eip712Payload tx l1_client_id main_contract
      let eth_signature := ethSignTypedData eth_signer typed_data
      .ok (.EthECDSA eth_signature)
    | .EthCreate2 data =>
      let pubkey_hash := pubKeyHashBytes zklink_singer.publicKey
      let from_address := data.get_address pubkey_hash
      if from_address ≠ account_address then .error .IncorrectTx
      else .ok (.EthCreate2 data)
  match eth_auth_data with
  | .error e => .error e
  | .ok ad =>
    let tx1 : ChangePubKey := { tx with eth_auth_data := ad }
    let sig := zklink_singer.signMusig tx1.get_bytes
    .ok { tx := { tx1 with signature := sig }, eth_signature := none }

/-- C8: the CREATE2 authorization check succeeds exactly when the
address derived from the salt, code hash and the signer's public-key
hash equals the declared account address; any other declared address
fails with the authorization-mismatch error, and on that failure
`sign_change_pubkey` returns the error — no auth data and no signature
are attached. -/
theorem check_create2data_address_mismatch (zklink_singer : ZkLinkSigner)
    (data : Create2Data) (account_address : List Nat) :
    (check_create2data zklink_singer data account_address = .ok () ↔
      data.get_address (pubKeyHashBytes zklink_singer.publicKey) = account_address) ∧
    (check_create2data zklink_singer data account_address = .error .IncorrectTx ↔
      data.get_address (pubKeyHashBytes zklink_singer.publicKey) ≠ account_address) ∧
    (∀ eth_signer tx main_contract l1_client_id,
      data.get_address (pubKeyHashBytes zklink_singer.publicKey) ≠ account_address →
      sign_change_pubkey eth_signer zklink_singer tx main_contract l1_client_id
        account_address (.EthCreate2 data) = .error SignError.IncorrectTx) := by
  refine ⟨?_, ?_, ?_⟩
  · by_cases h : data.get_address (pubKeyHashBytes zklink_singer.publicKey) = account_address
    · simp [check_create2data, h]
    · simp [check_create2data, h]
  · by_cases h : data.get_address (pubKeyHashBytes zklink_singer.publicKey) = account_address
    · simp [check_create2data, h]
    · simp [check_create2data, h]
  · intro eth_signer tx main_contract l1_client_id h
    simp [sign_change_pubkey, h]

/-- A concrete signer and CREATE2 data for the C8 witness. -/
def witnessSigner : ZkLinkSigner := { privateKey := (2 : Fs) }

/-- Concrete CREATE2 data for the C8 witness. -/
def witnessCreate2 : Create2Data :=
  { creator_address := List.replicate 20 1, salt_arg := List.replicate 32 2,
    code_hash := List.replicate 32 3 }

/-- Witness for C8: with the correct derived address the check passes;
with the empty declared address it fails, and `sign_change_pubkey`
returns the mismatch error. -/
theorem check_create2data_address_mismatch_witness :
    check_create2data witnessSigner witnessCreate2
      (witnessCreate2.get_address (pubKeyHashBytes witnessSigner.publicKey)) = .ok () ∧
    check_create2data witnessSigner witnessCreate2 [] = .error .IncorrectTx ∧
    sign_change_pubkey { key := 1 } witnessSigner
      { coreFields := [9], eth_auth_data := .OnChain, signature := [] }
      (List.replicate 20 7) 1 [] (.EthCreate2 witnessCreate2) =
      .error SignError.IncorrectTx := by
  refine ⟨?_, ?_, ?_⟩
  · exact (check_create2data_address_mismatch witnessSigner witnessCreate2
      (witnessCreate2.get_address (pubKeyHashBytes witnessSigner.publicKey))).1.mpr rfl
  · exact (check_create2data_address_mismatch witnessSigner witnessCreate2 []).2.1.mpr
      (by decide)
  · exact (check_create2data_address_mismatch witnessSigner witnessCreate2 []).2.2
      { key := 1 } { coreFields := [9], eth_auth_data := .OnChain, signature := [] }
      (List.replicate 20 7) 1 (by decide)
